import Mathlib

/-!
Shallow embedding of the Dissent anonymity core: the immutable Group
data model (src/src/Anonymity/Group.hpp) and the BulkRound bulk
protocol (src/src/Anonymity/BulkRound.hpp).  Peer ids are modelled as
naturals, byte arrays as lists of naturals, and an asymmetric key by
its serialized byte form.  Function bodies that live in the header are
transcribed from the source; bodies that are not part of this
repository (the .cpp files) are modelled from the specification and
carry a doc comment saying so.
-/

namespace Dissent

/-- Modelled from the spec: bytewise xor of two byte arrays (the free
function Xor declared at BulkRound.hpp line 476; its body is not in the
repository).  The spec requires equal lengths; on unequal lengths this
truncates to the shorter argument. -/
def xorB (a b : List Nat) : List Nat := List.zipWith Nat.xor a b

/-- Modelled from the spec: Qt byte-array comparison as used by the
GroupContainer operator< (Group.hpp line 248): bytewise lexicographic,
a strict prefix comparing less. -/
def byteLt : List Nat → List Nat → Bool
  | [], [] => false
  | [], _ :: _ => true
  | _ :: _, [] => false
  | a :: as, b :: bs => if a < b then true else if b < a then false else byteLt as bs

/-- GroupContainer (Group.hpp lines 23-25): a triple of peer Id,
asymmetric key (modelled by its serialized bytes) and DH public bytes,
with the Triple field names first, second, third. -/
structure GroupContainer where
  first : Nat
  second : List Nat
  third : List Nat
deriving DecidableEq

/-- Source operator== for GroupContainer (Group.hpp lines 231-236),
transcribed exactly as written, disjunctions included. -/
def gcEq (lhs rhs : GroupContainer) : Bool :=
  (lhs.first == rhs.first) || (lhs.second == rhs.second) || (lhs.third == rhs.third)

/-- Source operator!= for GroupContainer (Group.hpp lines 218-223). -/
def gcNe (lhs rhs : GroupContainer) : Bool :=
  (lhs.first != rhs.first) || (lhs.second != rhs.second) || (lhs.third != rhs.third)

/-- Source operator< for GroupContainer (Group.hpp lines 244-250):
first by Id, then by the serialized key bytes, then by the DH bytes. -/
def gcLt (lhs rhs : GroupContainer) : Bool :=
  decide (lhs.first < rhs.first) ||
    ((lhs.first == rhs.first) &&
      (byteLt lhs.second rhs.second ||
        ((lhs.second == rhs.second) && byteLt lhs.third rhs.third)))

/-- Propositional form of the strict roster order operator<. -/
def gcLtP (a b : GroupContainer) : Prop := gcLt a b = true

/-- Non-strict companion of the roster order: b is not strictly below
a.  This is the invariant the sorted roster satisfies. -/
def gcLeP (a b : GroupContainer) : Prop := gcLt b a = false

instance : DecidableRel gcLtP :=
  fun a b => inferInstanceAs (Decidable (gcLt a b = true))

instance : DecidableRel gcLeP :=
  fun a b => inferInstanceAs (Decidable (gcLt b a = false))

/-- GroupData (Group.hpp lines 30-59): the private storage of a Group.
The QHash id-to-index map is modelled as an association list. -/
structure GroupData where
  Roster : List GroupContainer
  IdtoInt : List (Nat × Nat)
  Leader : Nat
  SGPolicy : Nat
  Size : Nat
deriving DecidableEq

/-- Default GroupData constructor (Group.hpp line 37): empty group,
subgroup policy 0, size 0. -/
def emptyGroupData : GroupData := ⟨[], [], 0, 0, 0⟩

/-- Main GroupData constructor (Group.hpp lines 39-48): stores the
given fields and sets Size to roster.count(). -/
def mkGroupData (roster : List GroupContainer) (id_to_int : List (Nat × Nat))
    (leader : Nat) (subgroup_policy : Nat) : GroupData :=
  ⟨roster, id_to_int, leader, subgroup_policy, roster.length⟩

/-- Group (Group.hpp line 66): an immutable wrapper around GroupData. -/
structure Group where
  data : GroupData
deriving DecidableEq

/-- Group::Count (Group.hpp line 189): returns the stored Size. -/
def Group.Count (g : Group) : Nat := g.data.Size

/-- Shared sentinel key returned on failed lookups (Group.hpp lines
202-206), modelled as the empty serialized form of the null key. -/
def EmptyKey : List Nat := []

/-- Insertion of one element into a sorted roster: existing elements
strictly below the new one stay in front. -/
def insertSorted (x : GroupContainer) : List GroupContainer → List GroupContainer
  | [] => [x]
  | y :: ys => if gcLt y x then y :: insertSorted x ys else x :: y :: ys

/-- Modelled from the spec: the Group constructor sorts the incoming
roster ascending and removes duplicates, roster = sort(dedup(R))
(constructor declared at Group.hpp lines 103-105; its body is not in
the repository). -/
def sortRoster (roster : List GroupContainer) : List GroupContainer :=
  roster.dedup.foldr insertSorted []

/-- Modelled from the spec: the id-to-index map sends the id of the
roster entry at position i to i. -/
def buildIdtoInt (roster : List GroupContainer) : List (Nat × Nat) :=
  roster.enum.map (fun p => (p.2.first, p.1))

/-- Modelled from the spec: the Group constructor (Group.hpp lines
103-105, body not in the repository): sort the roster, build the index,
store the leader and the subgroup policy. -/
def mkGroup (roster : List GroupContainer) (leader : Nat) (subgroup_policy : Nat) : Group :=
  ⟨mkGroupData (sortRoster roster) (buildIdtoInt (sortRoster roster)) leader subgroup_policy⟩

/-- First index of an entry with the given id, counting from i. -/
def findIndexAux (id : Nat) : List GroupContainer → Nat → Option Nat
  | [], _ => none
  | e :: rest, i => if e.first = id then some i else findIndexAux id rest (i + 1)

/-- Modelled from the spec: Group::GetIndex (declared Group.hpp line
160, body not in the repository): the position of the id in the
roster, -1 when absent. -/
def Group.GetIndex (g : Group) (id : Nat) : Int :=
  match findIndexAux id g.data.Roster 0 with
  | some i => (i : Int)
  | none => -1

/-- Modelled from the spec: Group::GetId (declared Group.hpp line 136,
body not in the repository): the id at an ordered position, the
designated zero id 0 when the position is out of range. -/
def Group.GetId (g : Group) (idx : Int) : Nat :=
  match idx with
  | Int.ofNat n =>
    match g.data.Roster[n]? with
    | some e => e.first
    | none => 0
  | Int.negSucc _ => 0

/-- Modelled from the spec: Group::Contains (declared Group.hpp line
154, body not in the repository). -/
def Group.Contains (g : Group) (id : Nat) : Bool :=
  g.data.Roster.any (fun e => e.first == id)

/-- Modelled from the spec: Group::GetKey (declared Group.hpp line 166,
body not in the repository): the member key, or the shared sentinel
EmptyKey when the id is absent. -/
def Group.GetKey (g : Group) (id : Nat) : List Nat :=
  match g.data.Roster.find? (fun e => e.first == id) with
  | some e => e.second
  | none => EmptyKey

/-- Modelled from the spec: Group::GetPublicDiffieHellman (declared
Group.hpp line 178, body not in the repository): the member DH public
bytes, empty bytes when the id is absent. -/
def Group.GetPublicDiffieHellman (g : Group) (id : Nat) : List Nat :=
  match g.data.Roster.find? (fun e => e.first == id) with
  | some e => e.third
  | none => []

/-- Modelled from the spec: Group::Next (declared Group.hpp line 142,
body not in the repository): mod-N cyclic successor over the sorted
roster; an unknown id yields the zero id. -/
def Group.Next (g : Group) (id : Nat) : Nat :=
  match findIndexAux id g.data.Roster 0 with
  | some i => g.GetId (((i + 1) % g.data.Roster.length : Nat) : Int)
  | none => 0

/-- Modelled from the spec: Group::Previous (declared Group.hpp line
148, body not in the repository): mod-N cyclic predecessor over the
sorted roster; an unknown id yields the zero id. -/
def Group.Previous (g : Group) (id : Nat) : Nat :=
  match findIndexAux id g.data.Roster 0 with
  | some i => g.GetId (((i + g.data.Roster.length - 1) % g.data.Roster.length : Nat) : Int)
  | none => 0

/-- std::includes over roster iterators, as instantiated by IsSubset
(Group.hpp lines 258-261): both ranges sorted by operator<; true iff
every element of the second sorted range occurs in the first. -/
def includes : List GroupContainer → List GroupContainer → Bool
  | _, [] => true
  | [], _ :: _ => false
  | a :: as, b :: bs =>
    if gcLt b a then false
    else if gcLt a b then includes as (b :: bs)
    else includes as bs

/-- IsSubset (Group.hpp lines 258-261): all members of subset are in
set. -/
def IsSubset (set subset : Group) : Bool :=
  includes set.data.Roster subset.data.Roster

/-- BulkRound::State (BulkRound.hpp lines 107-114), transcribed
exactly: these six enumerators and no others. -/
inductive State where
  | Offline
  | Shuffling
  | DataSharing
  | ReceivingLeaderData
  | ProcessingLeaderData
  | Finished
deriving DecidableEq, Fintype

/-- BulkRound::StateToString (BulkRound.hpp lines 120-124): the Qt
meta-enum valueToKey returns the enumerator identifier. -/
def StateToString : State → String
  | State.Offline => "Offline"
  | State.Shuffling => "Shuffling"
  | State.DataSharing => "DataSharing"
  | State.ReceivingLeaderData => "ReceivingLeaderData"
  | State.ProcessingLeaderData => "ProcessingLeaderData"
  | State.Finished => "Finished"

/-- Observable per-round state of a BulkRound during data sharing: the
stop flag of the base Round, the machine state, the per-peer validated
rows (none standing for not yet received, so a validated row may be
empty), the received count, the blamed members and the recovered
cleartexts (fields _state, _messages, _received_messages,
_bad_members, _cleartexts of BulkRound.hpp lines 386-451). -/
structure BulkState where
  stopped : Bool
  state : State
  messages : List (Option (List Nat))
  receivedMessages : Nat
  badMembers : List Nat
  cleartexts : List (List Nat)
deriving DecidableEq

/-- Modelled from the spec: HandleBulkData (declared BulkRound.hpp line
260, body not in the repository).  A stopped round ignores input.  When
the peers row is already validated, redelivery of the same row is
ignored (duplicate suppression, spec section 4.5), while a second
distinct row triggers blame against that peer (DuplicateSubmission,
spec sections 4.5 and 7).  A fresh row of the expected bulk size is
stored and counted; a fresh row of the wrong length blames the
sender. -/
def HandleBulkData (expected : Nat) (st : BulkState) (idx : Nat) (data : List Nat) : BulkState :=
  if st.stopped then st
  else
    match st.messages.getD idx none with
    | some row =>
      if data = row then st
      else
        ⟨st.stopped, st.state, st.messages, st.receivedMessages,
          st.badMembers ++ [idx], st.cleartexts⟩
    | none =>
      if data.length = expected then
        ⟨st.stopped, st.state, st.messages.set idx (some data), st.receivedMessages + 1,
          st.badMembers, st.cleartexts⟩
      else
        ⟨st.stopped, st.state, st.messages, st.receivedMessages,
          st.badMembers ++ [idx], st.cleartexts⟩

/-- Modelled from the spec: external cancellation by the round owner
(the base class Round is not in the repository): mark the round
stopped and touch nothing else, so nothing is delivered and nobody is
blamed. -/
def Stop (st : BulkState) : BulkState :=
  ⟨true, st.state, st.messages, st.receivedMessages, st.badMembers, st.cleartexts⟩

/-- BulkRound::Descriptor (BulkRound.hpp lines 58-94): message length,
anonymous DH public, per-peer xor-mask hashes, cleartext hash. -/
structure Descriptor where
  Length : Int
  PublicDh : List Nat
  XorMessageHashes : List (List Nat)
  CleartextHash : List Nat
deriving DecidableEq

/-- Default Descriptor (BulkRound.hpp line 60): length -1, empty
fields. -/
def defaultDescriptor : Descriptor := ⟨-1, [], [], []⟩

/-- Modelled from the spec: encoding of an int as a sign tag and a
magnitude, part of the fixed length-prefixed codec (the operator<< and
operator>> bodies are not in the repository). -/
def encInt : Int → List Nat
  | Int.ofNat n => [0, n]
  | Int.negSucc n => [1, n]

/-- Decoder matching encInt; returns the value and the remaining
stream. -/
def decInt : List Nat → Option (Int × List Nat)
  | 0 :: n :: rest => some (Int.ofNat n, rest)
  | 1 :: n :: rest => some (Int.negSucc n, rest)
  | _ => none

/-- Modelled from the spec: length-prefixed byte field. -/
def encBytes (b : List Nat) : List Nat := b.length :: b

/-- Decoder matching encBytes. -/
def decBytes : List Nat → Option (List Nat × List Nat)
  | [] => none
  | n :: rest => if n ≤ rest.length then some (rest.take n, rest.drop n) else none

/-- Modelled from the spec: count-prefixed vector of byte fields. -/
def encBytesVec (l : List (List Nat)) : List Nat :=
  l.length :: (l.map encBytes).flatten

/-- Decoder for a counted sequence of byte fields. -/
def decBytesVecAux : Nat → List Nat → Option (List (List Nat) × List Nat)
  | 0, rest => some ([], rest)
  | n + 1, rest =>
    match decBytes rest with
    | none => none
    | some (b, rest1) =>
      match decBytesVecAux n rest1 with
      | none => none
      | some (bs, rest2) => some (b :: bs, rest2)

/-- Decoder matching encBytesVec. -/
def decBytesVec : List Nat → Option (List (List Nat) × List Nat)
  | [] => none
  | n :: rest => decBytesVecAux n rest

/-- Modelled from the spec: Descriptor serialization, in order length,
anonymous DH public, xor-mask hashes, cleartext hash, each field
length-prefixed (spec section 6; operator<< declared BulkRound.hpp
lines 481-482, body not in the repository). -/
def encDescriptor (d : Descriptor) : List Nat :=
  encInt d.Length ++ encBytes d.PublicDh ++ encBytesVec d.XorMessageHashes ++
    encBytes d.CleartextHash

/-- Modelled from the spec: Descriptor deserialization, the inverse of
encDescriptor (operator>> declared BulkRound.hpp line 484, body not in
the repository). -/
def decDescriptor (s : List Nat) : Option (Descriptor × List Nat) :=
  match decInt s with
  | none => none
  | some (len, r1) =>
    match decBytes r1 with
    | none => none
    | some (dh, r2) =>
      match decBytesVec r2 with
      | none => none
      | some (xh, r3) =>
        match decBytes r3 with
        | none => none
        | some (ct, r4) => some (⟨len, dh, xh, ct⟩, r4)

/-- Modelled from the spec: one roster entry on the wire is the peer
id followed by the key bytes and the DH bytes (spec section 6). -/
def encEntry (e : GroupContainer) : List Nat :=
  e.first :: (encBytes e.second ++ encBytes e.third)

/-- Decoder matching encEntry. -/
def decEntry : List Nat → Option (GroupContainer × List Nat)
  | [] => none
  | id :: rest =>
    match decBytes rest with
    | none => none
    | some (k, r1) =>
      match decBytes r1 with
      | none => none
      | some (dh, r2) => some (⟨id, k, dh⟩, r2)

/-- Decoder for a counted sequence of roster entries. -/
def decEntriesAux : Nat → List Nat → Option (List GroupContainer × List Nat)
  | 0, rest => some ([], rest)
  | n + 1, rest =>
    match decEntry rest with
    | none => none
    | some (e, r1) =>
      match decEntriesAux n r1 with
      | none => none
      | some (es, r2) => some (e :: es, r2)

/-- Modelled from the spec: Group serialization as leader id, subgroup
policy, and the roster in sorted order (spec section 6; operator<<
declared Group.hpp line 285, body not in the repository). -/
def encGroup (g : Group) : List Nat :=
  g.data.Leader :: g.data.SGPolicy :: g.data.Roster.length ::
    (g.data.Roster.map encEntry).flatten

/-- Modelled from the spec: Group deserialization, the inverse of
encGroup (operator>> declared Group.hpp line 290, body not in the
repository); the index and size fields are rebuilt from the decoded
roster. -/
def decGroup : List Nat → Option (Group × List Nat)
  | leader :: policy :: n :: rest =>
    match decEntriesAux n rest with
    | none => none
    | some (roster, r1) =>
      some (⟨mkGroupData roster (buildIdtoInt roster) leader policy⟩, r1)
  | _ => none

/-- Modelled from the spec: the data of one honest bulk round (the
bodies of CreateDescriptor, GenerateXorMessage, ProcessMessage and
ProcessBlame are not in the repository).  N peers; the slot-to-owner
assignment produced by the shuffle; one cleartext per slot; the DH
shared secret of each (slot, peer) pair, identical from both endpoints;
the per-slot anonymous DH public; the hash primitive H; and the
DH-seeded deterministic keystream. -/
structure BulkParams where
  N : Nat
  owner : Nat → Nat
  cleartext : Nat → List Nat
  sharedSecret : Nat → Nat → List Nat
  anonDh : Nat → List Nat
  H : List Nat → List Nat
  keystream : List Nat → Nat → List Nat

namespace BulkParams

/-- Slot length: an honest descriptor advertises the length of its
cleartext. -/
def len (P : BulkParams) (s : Nat) : Nat := (P.cleartext s).length

/-- Modelled from the spec: the xor mask of peer p for slot s is the
keystream seeded from the DH shared secret, of exactly the descriptor
length (spec section 4.3). -/
def mask (P : BulkParams) (s p : Nat) : List Nat :=
  P.keystream (P.sharedSecret s p) (P.len s)

/-- Xor of all other peers masks for a slot, as computed by the slot
owner. -/
def othersXor (P : BulkParams) (s : Nat) : List Nat :=
  (((List.range P.N).erase (P.owner s)).map (P.mask s)).foldr xorB
    (List.replicate (P.len s) 0)

/-- Modelled from the spec: the contribution of peer p to slot s: the
slot owner closes the xor sum with its cleartext, every other peer
sends its mask (spec section 4.3, GenerateXorMessage). -/
def contrib (P : BulkParams) (s p : Nat) : List Nat :=
  if p = P.owner s then xorB (P.cleartext s) (P.othersXor s) else P.mask s p

/-- Modelled from the spec: the descriptor published for slot s by its
honest owner (CreateDescriptor): length, anonymous DH public, the hash
of every peers contribution, the hash of the cleartext. -/
def descriptor (P : BulkParams) (s : Nat) : Descriptor :=
  ⟨(P.len s : Int), P.anonDh s,
    (List.range P.N).map (fun p => P.H (P.contrib s p)), P.H (P.cleartext s)⟩

/-- Xor across all N peers contributions for slot s (the aggregation
done by ProcessMessage). -/
def total (P : BulkParams) (s : Nat) : List Nat :=
  ((List.range P.N).map (P.contrib s)).foldr xorB (List.replicate (P.len s) 0)

/-- Xor across all N transmitted rows, restricted to slot s. -/
def columnXor (P : BulkParams) (T : Nat → Nat → List Nat) (s : Nat) : List Nat :=
  ((List.range P.N).map (fun p => T p s)).foldr xorB (List.replicate (P.len s) 0)

/-- Honestly published xor-mask hashes. -/
def xhHonest (P : BulkParams) (s p : Nat) : List Nat := P.H (P.contrib s p)

/-- Honestly published cleartext hashes. -/
def chHonest (P : BulkParams) (s : Nat) : List Nat := P.H (P.cleartext s)

/-- Honest transmissions: every peer transmits its true contribution. -/
def tHonest (P : BulkParams) (p s : Nat) : List Nat := P.contrib s p

end BulkParams

/-- The single-peer deviations of the attribution claim: a peer d
transmits, for slot s0, bytes that differ from its true contribution;
the owner of slot s0 publishes a bad xor hash for the cell of peer p0;
the owner of slot s0 publishes a wrong cleartext-hash claim. -/
inductive Deviation where
  | badBytes (d s0 : Nat) (bytes : List Nat)
  | badHash (s0 p0 : Nat) (h : List Nat)
  | badCtHash (s0 : Nat) (h : List Nat)

/-- The deviating peer: the transmitter for bad bytes, the publishing
slot owner for the two publication deviations. -/
def culprit (P : BulkParams) : Deviation → Nat
  | Deviation.badBytes d _ _ => d
  | Deviation.badHash s0 _ _ => P.owner s0
  | Deviation.badCtHash s0 _ => P.owner s0

/-- Published xor-mask hashes under a deviation. -/
def xhDev (P : BulkParams) : Deviation → Nat → Nat → List Nat
  | Deviation.badHash s0 p0 h => fun s p => if s = s0 ∧ p = p0 then h else P.xhHonest s p
  | _ => P.xhHonest

/-- Published cleartext hashes under a deviation. -/
def chDev (P : BulkParams) : Deviation → Nat → List Nat
  | Deviation.badCtHash s0 h => fun s => if s = s0 then h else P.chHonest s
  | _ => P.chHonest

/-- Transmitted rows under a deviation. -/
def tDev (P : BulkParams) : Deviation → Nat → Nat → List Nat
  | Deviation.badBytes d s0 bytes => fun p s => if p = d ∧ s = s0 then bytes else P.tHonest p s
  | _ => P.tHonest

/-- Wellformedness of a deviation: indices within the group and the
corrupted value actually different from the honest one. -/
def devWF (P : BulkParams) : Deviation → Prop
  | Deviation.badBytes d s0 bytes => d < P.N ∧ s0 < P.N ∧ bytes ≠ P.contrib s0 d
  | Deviation.badHash s0 p0 h => s0 < P.N ∧ p0 < P.N ∧ h ≠ P.H (P.contrib s0 p0)
  | Deviation.badCtHash s0 h => s0 < P.N ∧ h ≠ P.H (P.cleartext s0)

/-- Modelled from the spec: resolution of one suspected cell of the
blame protocol (ProcessBlame, spec section 4.6).  The owner cell
carries the owners own published hash and transmitted bytes, so a
mismatch there blames the owner.  For another peers cell the mask is
recomputed from the disclosed shared secret: a transmitted value that
disagrees with the recomputed mask blames the transmitter, and a
published hash that disagrees with the recomputed masks hash blames
the publishing owner. -/
def processCell (P : BulkParams) (xh : Nat → Nat → List Nat)
    (T : Nat → Nat → List Nat) (s p : Nat) : List Nat :=
  if p = P.owner s then [P.owner s]
  else
    (if T p s = P.keystream (P.sharedSecret s p) (P.len s) then [] else [p]) ++
      (if P.H (P.keystream (P.sharedSecret s p) (P.len s)) = xh s p then []
       else [P.owner s])

/-- Cells of slot s whose transmitted bytes do not hash to the
published commitment. -/
def badCells (P : BulkParams) (xh : Nat → Nat → List Nat)
    (T : Nat → Nat → List Nat) (s : Nat) : List Nat :=
  (List.range P.N).filter (fun p => decide (P.H (T p s) ≠ xh s p))

/-- Modelled from the spec: blame restricted to one slot: resolve every
bad cell; when every cell checks out but the aggregated cleartext fails
its published hash, the hash claim is the owners and the owner is
blamed (spec section 4.6). -/
def slotBlame (P : BulkParams) (xh : Nat → Nat → List Nat) (ch : Nat → List Nat)
    (T : Nat → Nat → List Nat) (s : Nat) : List Nat :=
  if badCells P xh T s = [] then
    (if P.H (P.columnXor T s) = ch s then [] else [P.owner s])
  else ((badCells P xh T s).map (processCell P xh T s)).flatten

/-- Modelled from the spec: ProcessBlame (declared BulkRound.hpp lines
347-351, body not in the repository): scan every slot and collect the
blamed members into the bad-members list that GetBadMembers returns. -/
def processBlame (P : BulkParams) (xh : Nat → Nat → List Nat) (ch : Nat → List Nat)
    (T : Nat → Nat → List Nat) : List Nat :=
  ((List.range P.N).map (slotBlame P xh ch T)).flatten

/-- Concrete two-peer round used to exercise the bulk-protocol theorems
on executable inputs: peer s owns slot s, the hash is the identity, the
keystream fills the requested length with a digest of the seed. -/
def Pw : BulkParams :=
  ⟨2, fun s => s, fun s => [s + 3], fun s p => [s, p], fun s => [s],
    fun b => b, fun sec L => List.replicate L (sec.foldr Nat.add 1)⟩

/-! ### Xor-byte algebra -/

theorem natXor_left_comm (a b c : Nat) : a ^^^ (b ^^^ c) = b ^^^ (a ^^^ c) := by
  rw [← Nat.xor_assoc, Nat.xor_comm a b, Nat.xor_assoc]

theorem xorB_left_comm (x y z : List Nat) : xorB x (xorB y z) = xorB y (xorB x z) := by
  induction x generalizing y z with
  | nil => cases y <;> cases z <;> rfl
  | cons a as ih =>
    cases y with
    | nil => rfl
    | cons b bs =>
      cases z with
      | nil => rfl
      | cons c cs =>
        show (a ^^^ (b ^^^ c)) :: xorB as (xorB bs cs)
            = (b ^^^ (a ^^^ c)) :: xorB bs (xorB as cs)
        rw [natXor_left_comm, ih]

theorem xorB_cancel (a b : List Nat) (h : a.length = b.length) : xorB (xorB a b) b = a := by
  induction a generalizing b with
  | nil =>
    cases b with
    | nil => rfl
    | cons y ys => simp at h
  | cons x xs ih =>
    cases b with
    | nil => simp at h
    | cons y ys =>
      have h2 : xs.length = ys.length := by simp [List.length_cons] at h; omega
      show ((x ^^^ y) ^^^ y) :: xorB (xorB xs ys) ys = x :: xs
      rw [Nat.xor_assoc, Nat.xor_self, Nat.xor_zero, ih ys h2]

theorem xorB_length (a b : List Nat) : (xorB a b).length = min a.length b.length :=
  List.length_zipWith _ _ _

theorem foldr_xorB_length (L : Nat) (l : List (List Nat)) (h : ∀ x ∈ l, x.length = L) :
    (l.foldr xorB (List.replicate L 0)).length = L := by
  induction l with
  | nil => simp
  | cons x xs ih =>
    have hx := h x (List.mem_cons_self x xs)
    have ihh := ih (fun y hy => h y (List.mem_cons_of_mem _ hy))
    simp [xorB_length, hx, ihh]

theorem foldr_xorB_perm (l1 l2 : List (List Nat)) (h : l1.Perm l2) (z : List Nat) :
    l1.foldr xorB z = l2.foldr xorB z :=
  @List.Perm.foldr_eq _ _ xorB _ _ ⟨fun a b c => xorB_left_comm a b c⟩ h z

/-! ### The honest xor aggregation recovers every cleartext -/

theorem othersXor_length (P : BulkParams) (s : Nat)
    (hks : ∀ sec L, (P.keystream sec L).length = L) :
    (P.othersXor s).length = P.len s := by
  unfold BulkParams.othersXor
  apply foldr_xorB_length
  intro x hx
  obtain ⟨p, hp, hpx⟩ := List.mem_map.mp hx
  rw [← hpx]
  simp [BulkParams.mask, hks]

theorem total_eq_cleartext (P : BulkParams) (s : Nat)
    (hks : ∀ sec L, (P.keystream sec L).length = L) (how : P.owner s < P.N) :
    P.total s = P.cleartext s := by
  have hmem : P.owner s ∈ List.range P.N := List.mem_range.mpr how
  have hperm : (List.range P.N).Perm (P.owner s :: (List.range P.N).erase (P.owner s)) :=
    List.perm_cons_erase hmem
  have h1 : P.total s =
      ((P.owner s :: (List.range P.N).erase (P.owner s)).map (P.contrib s)).foldr xorB
        (List.replicate (P.len s) 0) :=
    foldr_xorB_perm _ _ (hperm.map (P.contrib s)) _
  have h2 : (((List.range P.N).erase (P.owner s)).map (P.contrib s)) =
      (((List.range P.N).erase (P.owner s)).map (P.mask s)) := by
    apply List.map_congr_left
    intro a ha
    have hne : a ≠ P.owner s := ((List.nodup_range P.N).mem_erase_iff.mp ha).1
    simp [BulkParams.contrib, hne]
  have h3 : P.contrib s (P.owner s) = xorB (P.cleartext s) (P.othersXor s) := by
    simp [BulkParams.contrib]
  have h4 : (((List.range P.N).erase (P.owner s)).map (P.mask s)).foldr xorB
      (List.replicate (P.len s) 0) = P.othersXor s := rfl
  rw [h1, List.map_cons, List.foldr_cons, h2, h4, h3]
  apply xorB_cancel
  rw [othersXor_length P s hks]
  rfl

/-- Claim C1: for every slot s of an honest bulk round, the xor across
all N peers contributions (each non-owner contribution the DH-seeded
keystream of the descriptor length, the owner contribution its
cleartext xored with all other contributions) equals the slot
cleartext, and the hash of the cleartext equals the cleartext hash
published in the slot descriptor. -/
theorem bulk_xor_correctness (P : BulkParams) (s : Nat)
    (hks : ∀ sec L, (P.keystream sec L).length = L) (how : P.owner s < P.N) :
    P.total s = P.cleartext s ∧ P.H (P.cleartext s) = (P.descriptor s).CleartextHash :=
  ⟨total_eq_cleartext P s hks how, rfl⟩

/-- Witness for C1 at the concrete two-peer round. -/
theorem bulk_xor_correctness_witness :
    Pw.owner 0 < Pw.N ∧
      (Pw.total 0 = Pw.cleartext 0 ∧ Pw.H (Pw.cleartext 0) = (Pw.descriptor 0).CleartextHash) :=
  ⟨by decide, bulk_xor_correctness Pw 0 (fun _ L => List.length_replicate _ _) (by decide)⟩

/-- Claim C5: contrary to the claim and to the operators own doc
comments, GroupContainer operator== is a disjunction of the component
comparisons: at the concrete pair below it returns true although the
key bytes and the DH bytes disagree, and operator!= returns true at
the same pair, so operator!= is not the negation of operator==. -/
theorem gcEq_disjunction_bug :
    gcEq ⟨0, [0], [0]⟩ ⟨0, [1], [1]⟩ = true ∧
      gcNe ⟨0, [0], [0]⟩ ⟨0, [1], [1]⟩ = true ∧
      (⟨0, [0], [0]⟩ : GroupContainer).second ≠ (⟨0, [1], [1]⟩ : GroupContainer).second ∧
      (⟨0, [0], [0]⟩ : GroupContainer).third ≠ (⟨0, [1], [1]⟩ : GroupContainer).third := by
  decide

/-- Claim C6: redelivering the very row that has already been
validated from the same peer leaves the round state, the received
count and all outputs unchanged and triggers no blame.  A second
distinct row from that peer would instead take the blame branch of
HandleBulkData. -/
theorem handle_duplicate_idempotent (expected : Nat) (st : BulkState) (idx : Nat)
    (data : List Nat) (h : st.messages.getD idx none = some data) :
    HandleBulkData expected st idx data = st ∧
      (HandleBulkData expected st idx data).receivedMessages = st.receivedMessages ∧
      (HandleBulkData expected st idx data).badMembers = st.badMembers ∧
      (HandleBulkData expected st idx data).cleartexts = st.cleartexts := by
  have heq : HandleBulkData expected st idx data = st := by
    unfold HandleBulkData
    by_cases hs : st.stopped = true
    · simp [hs]
    · rw [List.getD_eq_getElem?_getD] at h
      simp [hs, h]
  exact ⟨heq, by rw [heq], by rw [heq], by rw [heq]⟩

/-- Witness for C6: peer 0 has a validated length-0 row, and
redelivering that same empty row is a no-op. -/
theorem handle_duplicate_idempotent_witness :
    (⟨false, State.DataSharing, [some [], some [7]], 2, [], []⟩ : BulkState).messages.getD
        0 none = some [] ∧
      (HandleBulkData 0 ⟨false, State.DataSharing, [some [], some [7]], 2, [], []⟩ 0 [] =
          ⟨false, State.DataSharing, [some [], some [7]], 2, [], []⟩ ∧
        (HandleBulkData 0 ⟨false, State.DataSharing, [some [], some [7]], 2, [], []⟩ 0
            []).receivedMessages =
          (⟨false, State.DataSharing, [some [], some [7]], 2, [], []⟩ :
            BulkState).receivedMessages ∧
        (HandleBulkData 0 ⟨false, State.DataSharing, [some [], some [7]], 2, [], []⟩ 0
            []).badMembers =
          (⟨false, State.DataSharing, [some [], some [7]], 2, [], []⟩ : BulkState).badMembers ∧
        (HandleBulkData 0 ⟨false, State.DataSharing, [some [], some [7]], 2, [], []⟩ 0
            []).cleartexts =
          (⟨false, State.DataSharing, [some [], some [7]], 2, [], []⟩ : BulkState).cleartexts) :=
  ⟨by decide, handle_duplicate_idempotent 0 _ 0 [] (by decide)⟩

/-- Claim C7 counterexample: the BulkRound State enumeration contains
no Aborted enumerator at all — no state stringifies to Aborted — so
cancellation cannot transition the round to a distinct Aborted state of
the State enum. -/
theorem no_aborted_state : ¬ ∃ s : State, StateToString s = "Aborted" := by decide

/-- Claim C7 (amended): external cancellation, modelled as the base
rounds Stop, is orthogonal to the State enum: it marks the round
stopped, delivers no cleartexts, blames nobody, and makes the round
terminal in that further bulk data is ignored. -/
theorem stop_terminal (expected : Nat) (st : BulkState) (idx : Nat) (data : List Nat) :
    (Stop st).stopped = true ∧ (Stop st).cleartexts = st.cleartexts ∧
      (Stop st).badMembers = st.badMembers ∧ (Stop st).state = st.state ∧
      HandleBulkData expected (Stop st) idx data = Stop st := by
  refine ⟨rfl, rfl, rfl, rfl, ?_⟩
  simp [HandleBulkData, Stop]

/-- Claim C10: both GroupData constructors set Size to the roster
length, so Group::Count always returns the number of roster entries. -/
theorem groupdata_size_invariant (roster : List GroupContainer)
    (id_to_int : List (Nat × Nat)) (leader policy : Nat) :
    (mkGroupData roster id_to_int leader policy).Size =
        (mkGroupData roster id_to_int leader policy).Roster.length ∧
      emptyGroupData.Size = emptyGroupData.Roster.length ∧
      (Group.mk (mkGroupData roster id_to_int leader policy)).Count = roster.length ∧
      (Group.mk emptyGroupData).Count = emptyGroupData.Roster.length :=
  ⟨rfl, rfl, rfl, rfl⟩

/-! ### The roster order is a strict total order -/

theorem byteLt_irrefl (a : List Nat) : byteLt a a = false := by
  induction a with
  | nil => rfl
  | cons x xs ih => simp [byteLt, ih]

theorem byteLt_asymm (a b : List Nat) (h : byteLt a b = true) : byteLt b a = false := by
  induction a generalizing b with
  | nil =>
    cases b with
    | nil => simp [byteLt] at h
    | cons y ys => rfl
  | cons x xs ih =>
    cases b with
    | nil => simp [byteLt] at h
    | cons y ys =>
      by_cases hxy : x < y
      · have hyx : ¬ y < x := Nat.lt_asymm hxy
        simp [byteLt, hxy, hyx]
      · by_cases hyx : y < x
        · simp [byteLt, hxy, hyx] at h
        · have hxs : byteLt xs ys = true := by simpa [byteLt, hxy, hyx] using h
          simp [byteLt, hxy, hyx, ih ys hxs]

theorem byteLt_trans (a b c : List Nat) (h1 : byteLt a b = true) (h2 : byteLt b c = true) :
    byteLt a c = true := by
  induction a generalizing b c with
  | nil =>
    cases b with
    | nil => simp [byteLt] at h1
    | cons y ys =>
      cases c with
      | nil => simp [byteLt] at h2
      | cons z zs => rfl
  | cons x xs ih =>
    cases b with
    | nil => simp [byteLt] at h1
    | cons y ys =>
      cases c with
      | nil => simp [byteLt] at h2
      | cons z zs =>
        by_cases hxy : x < y
        · by_cases hyz : y < z
          · have hxz : x < z := Nat.lt_trans hxy hyz
            simp [byteLt, hxz]
          · by_cases hzy : z < y
            · simp [byteLt, hyz, hzy] at h2
            · have hxz : x < z := by omega
              simp [byteLt, hxz]
        · by_cases hyx : y < x
          · simp [byteLt, hxy, hyx] at h1
          · by_cases hyz : y < z
            · have hxz : x < z := by omega
              simp [byteLt, hxz]
            · by_cases hzy : z < y
              · simp [byteLt, hyz, hzy] at h2
              · have h1t : byteLt xs ys = true := by simpa [byteLt, hxy, hyx] using h1
                have h2t : byteLt ys zs = true := by simpa [byteLt, hyz, hzy] using h2
                have hxz : ¬ x < z := by omega
                have hzx : ¬ z < x := by omega
                simp [byteLt, hxz, hzx, ih ys zs h1t h2t]

theorem byteLt_connex (a b : List Nat) (h1 : byteLt a b = false) (h2 : byteLt b a = false) :
    a = b := by
  induction a generalizing b with
  | nil =>
    cases b with
    | nil => rfl
    | cons y ys => simp [byteLt] at h1
  | cons x xs ih =>
    cases b with
    | nil => simp [byteLt] at h2
    | cons y ys =>
      by_cases hxy : x < y
      · simp [byteLt, hxy] at h1
      · by_cases hyx : y < x
        · simp [byteLt, hyx] at h2
        · have hE : x = y := by omega
          have h1t : byteLt xs ys = false := by simpa [byteLt, hxy, hyx] using h1
          have h2t : byteLt ys xs = false := by simpa [byteLt, hyx, hxy] using h2
          rw [hE, ih ys h1t h2t]

theorem gcLt_iff (a b : GroupContainer) :
    gcLt a b = true ↔
      (a.first < b.first ∨ (a.first = b.first ∧
        (byteLt a.second b.second = true ∨
          (a.second = b.second ∧ byteLt a.third b.third = true)))) := by
  simp [gcLt, Bool.or_eq_true, Bool.and_eq_true, decide_eq_true_eq, beq_iff_eq]

theorem gcLt_irrefl (a : GroupContainer) : gcLt a a = false := by
  simp [gcLt, byteLt_irrefl]

theorem gcLt_asymm (a b : GroupContainer) (h : gcLt a b = true) : gcLt b a = false := by
  cases hba : gcLt b a with
  | false => rfl
  | true =>
    exfalso
    rcases (gcLt_iff a b).mp h with h1 | ⟨he, h2⟩ <;>
      rcases (gcLt_iff b a).mp hba with g1 | ⟨ge, g2⟩
    · omega
    · omega
    · omega
    · rcases h2 with h2l | ⟨heq, h3⟩ <;> rcases g2 with g2l | ⟨geq, g3⟩
      · have := byteLt_asymm _ _ h2l
        rw [this] at g2l
        exact Bool.noConfusion g2l
      · rw [geq] at h2l
        rw [byteLt_irrefl] at h2l
        exact Bool.noConfusion h2l
      · rw [heq] at g2l
        rw [byteLt_irrefl] at g2l
        exact Bool.noConfusion g2l
      · have := byteLt_asymm _ _ h3
        rw [this] at g3
        exact Bool.noConfusion g3

theorem gcLt_trans (a b c : GroupContainer) (h1 : gcLt a b = true) (h2 : gcLt b c = true) :
    gcLt a c = true := by
  apply (gcLt_iff a c).mpr
  rcases (gcLt_iff a b).mp h1 with f1 | ⟨fe, f2⟩ <;>
    rcases (gcLt_iff b c).mp h2 with g1 | ⟨ge, g2⟩
  · exact Or.inl (by omega)
  · exact Or.inl (by omega)
  · exact Or.inl (by omega)
  · right
    refine ⟨by omega, ?_⟩
    rcases f2 with f2l | ⟨feq, f3⟩ <;> rcases g2 with g2l | ⟨geq, g3⟩
    · exact Or.inl (byteLt_trans _ _ _ f2l g2l)
    · exact Or.inl (geq ▸ f2l)
    · exact Or.inl (feq.symm ▸ g2l)
    · exact Or.inr ⟨feq.trans geq, byteLt_trans _ _ _ f3 g3⟩

theorem gcLt_connex (a b : GroupContainer) (h1 : gcLt a b = false) (h2 : gcLt b a = false) :
    a = b := by
  have n1 : ¬ (gcLt a b = true) := by simp [h1]
  have n2 : ¬ (gcLt b a = true) := by simp [h2]
  rw [gcLt_iff] at n1
  rw [gcLt_iff] at n2
  have hfirst : a.first = b.first := by
    by_cases hab : a.first < b.first
    · exact absurd (Or.inl hab) n1
    · by_cases hba : b.first < a.first
      · exact absurd (Or.inl hba) n2
      · omega
  have hsecond : a.second = b.second := by
    by_cases hab : byteLt a.second b.second = true
    · exact absurd (Or.inr ⟨hfirst, Or.inl hab⟩) n1
    · by_cases hba : byteLt b.second a.second = true
      · exact absurd (Or.inr ⟨hfirst.symm, Or.inl hba⟩) n2
      · exact byteLt_connex _ _ (Bool.eq_false_iff.mpr hab) (Bool.eq_false_iff.mpr hba)
  have hthird : a.third = b.third := by
    by_cases hab : byteLt a.third b.third = true
    · exact absurd (Or.inr ⟨hfirst, Or.inr ⟨hsecond, hab⟩⟩) n1
    · by_cases hba : byteLt b.third a.third = true
      · exact absurd (Or.inr ⟨hfirst.symm, Or.inr ⟨hsecond.symm, hba⟩⟩) n2
      · exact byteLt_connex _ _ (Bool.eq_false_iff.mpr hab) (Bool.eq_false_iff.mpr hba)
  cases a
  cases b
  simp only [GroupContainer.mk.injEq]
  exact ⟨hfirst, hsecond, hthird⟩

/-! ### The canonical sorted roster -/

theorem mem_insertSorted (x z : GroupContainer) (l : List GroupContainer) :
    z ∈ insertSorted x l ↔ z = x ∨ z ∈ l := by
  induction l with
  | nil => simp [insertSorted]
  | cons y ys ih =>
    by_cases h : gcLt y x = true
    · simp only [insertSorted, if_pos h, List.mem_cons, ih]
      tauto
    · simp only [insertSorted, if_neg h, List.mem_cons]

theorem perm_insertSorted (x : GroupContainer) (l : List GroupContainer) :
    (insertSorted x l).Perm (x :: l) := by
  induction l with
  | nil => exact List.Perm.refl _
  | cons y ys ih =>
    by_cases h : gcLt y x = true
    · simp only [insertSorted, if_pos h]
      exact (ih.cons y).trans (List.Perm.swap x y ys)
    · simp only [insertSorted, if_neg h]
      exact List.Perm.refl _

theorem perm_foldr_insertSorted (l : List GroupContainer) :
    (l.foldr insertSorted []).Perm l := by
  induction l with
  | nil => exact List.Perm.refl _
  | cons x xs ih => exact (perm_insertSorted x _).trans (ih.cons x)

theorem perm_sortRoster (l : List GroupContainer) : (sortRoster l).Perm l.dedup :=
  perm_foldr_insertSorted l.dedup

theorem pairwise_insertSorted (x : GroupContainer) (l : List GroupContainer)
    (hl : List.Pairwise gcLeP l) : List.Pairwise gcLeP (insertSorted x l) := by
  induction l with
  | nil => simp [insertSorted]
  | cons y ys ih =>
    rcases List.pairwise_cons.mp hl with ⟨hy, hys⟩
    by_cases h : gcLt y x = true
    · simp only [insertSorted, if_pos h]
      apply List.pairwise_cons.mpr
      refine ⟨?_, ih hys⟩
      intro z hz
      rcases (mem_insertSorted x z ys).mp hz with hzx | hzy
      · rw [hzx]
        exact gcLt_asymm y x h
      · exact hy z hzy
    · simp only [insertSorted, if_neg h]
      apply List.pairwise_cons.mpr
      refine ⟨?_, hl⟩
      intro z hz
      rcases List.mem_cons.mp hz with hzy | hzys
      · rw [hzy]
        exact Bool.eq_false_iff.mpr h
      · have hyz : gcLeP y z := hy z hzys
        cases hc : gcLt z x with
        | false => exact hc
        | true =>
          exfalso
          by_cases hyz2 : gcLt y z = true
          · exact h (gcLt_trans y z x hyz2 hc)
          · have hzy2 : z = y := gcLt_connex z y hyz (Bool.eq_false_iff.mpr hyz2)
            rw [hzy2] at hc
            exact h hc

theorem pairwise_foldr_insertSorted (l : List GroupContainer) :
    List.Pairwise gcLeP (l.foldr insertSorted []) := by
  induction l with
  | nil => simp
  | cons x xs ih => exact pairwise_insertSorted x _ ih

theorem pairwise_sortRoster (l : List GroupContainer) :
    List.Pairwise gcLeP (sortRoster l) := pairwise_foldr_insertSorted l.dedup

theorem nodup_sortRoster (l : List GroupContainer) : (sortRoster l).Nodup :=
  (perm_sortRoster l).symm.nodup (List.nodup_dedup l)

theorem pairwise_gcLt_sortRoster (l : List GroupContainer) :
    List.Pairwise gcLtP (sortRoster l) := by
  have h1 := pairwise_sortRoster l
  have h2 : List.Pairwise (fun a b : GroupContainer => a ≠ b) (sortRoster l) :=
    nodup_sortRoster l
  apply List.Pairwise.imp ?_ (h1.and h2)
  intro a b hab
  rcases hab with ⟨hle, hne⟩
  cases hc : gcLt a b with
  | true => exact hc
  | false => exact absurd (gcLt_connex a b hc hle) hne

theorem eq_of_perm_of_pairwise_gcLt (l1 l2 : List GroupContainer) (h : l1.Perm l2)
    (s1 : List.Pairwise gcLtP l1) (s2 : List.Pairwise gcLtP l2) : l1 = l2 := by
  induction l1 generalizing l2 with
  | nil => exact (List.Perm.eq_nil h.symm).symm
  | cons x xs ih =>
    cases l2 with
    | nil => exact absurd h.eq_nil (List.cons_ne_nil x xs)
    | cons y ys =>
      rcases List.pairwise_cons.mp s1 with ⟨hx, hxs⟩
      rcases List.pairwise_cons.mp s2 with ⟨hy, hys⟩
      by_cases hxy : x = y
      · subst hxy
        rw [ih ys h.cons_inv hxs hys]
      · exfalso
        have hxin : x ∈ y :: ys := h.mem_iff.mp (List.mem_cons_self x xs)
        have hyin : y ∈ x :: xs := h.symm.mem_iff.mp (List.mem_cons_self y ys)
        have hx2 : x ∈ ys := by
          rcases List.mem_cons.mp hxin with h1 | h1
          · exact absurd h1 hxy
          · exact h1
        have hy2 : y ∈ xs := by
          rcases List.mem_cons.mp hyin with h1 | h1
          · exact absurd h1 (fun he => hxy he.symm)
          · exact h1
        have g1 : gcLtP y x := hy x hx2
        have g2 : gcLtP x y := hx y hy2
        have g3 := gcLt_asymm x y g2
        have g4 : gcLt y x = true := g1
        rw [g3] at g4
        exact Bool.noConfusion g4

/-- Claim C4: the roster produced by the Group constructor is sorted
strictly ascending by the lexicographic operator< on GroupContainer
(Id, then serialized key bytes, then DH bytes), and the constructor is
invariant under permutation of the input roster. -/
theorem group_canonicalisation (R Rp : List GroupContainer) (leader policy : Nat)
    (hperm : R.Perm Rp) :
    List.Pairwise gcLtP (mkGroup R leader policy).data.Roster ∧
      mkGroup R leader policy = mkGroup Rp leader policy := by
  have hr : sortRoster R = sortRoster Rp :=
    eq_of_perm_of_pairwise_gcLt _ _
      ((perm_sortRoster R).trans (hperm.dedup.trans (perm_sortRoster Rp).symm))
      (pairwise_gcLt_sortRoster R) (pairwise_gcLt_sortRoster Rp)
  constructor
  · exact pairwise_gcLt_sortRoster R
  · unfold mkGroup
    rw [hr]

/-- Witness for C4 at a concrete two-element roster and a permutation
of it. -/
theorem group_canonicalisation_witness :
    ([⟨2, [2], [2]⟩, ⟨1, [1], [1]⟩] : List GroupContainer).Perm
        [⟨1, [1], [1]⟩, ⟨2, [2], [2]⟩] ∧
      (List.Pairwise gcLtP (mkGroup [⟨2, [2], [2]⟩, ⟨1, [1], [1]⟩] 1 0).data.Roster ∧
        mkGroup [⟨2, [2], [2]⟩, ⟨1, [1], [1]⟩] 1 0 =
          mkGroup [⟨1, [1], [1]⟩, ⟨2, [2], [2]⟩] 1 0) :=
  ⟨by decide, group_canonicalisation _ _ 1 0 (by decide)⟩

/-! ### std::includes on sorted rosters -/

theorem includes_iff_mem (A B : List GroupContainer)
    (hA : List.Pairwise gcLtP A) (hB : List.Pairwise gcLtP B) :
    includes A B = true ↔ ∀ x ∈ B, x ∈ A := by
  induction A generalizing B with
  | nil =>
    cases B with
    | nil => simp [includes]
    | cons b bs =>
      simp [includes]
      exact ⟨b, fun hc => absurd rfl hc⟩
  | cons a as ih =>
    cases B with
    | nil => simp [includes]
    | cons b bs =>
      rcases List.pairwise_cons.mp hA with ⟨ha, has⟩
      rcases List.pairwise_cons.mp hB with ⟨hb, hbs⟩
      by_cases hba : gcLt b a = true
      · have hred : includes (a :: as) (b :: bs) = false := by
          simp [includes, hba]
        rw [hred]
        constructor
        · intro hfalse
          exact Bool.noConfusion hfalse
        · intro hall
          exfalso
          have hbin : b ∈ a :: as := hall b (List.mem_cons_self b bs)
          rcases List.mem_cons.mp hbin with h1 | h1
          · rw [h1] at hba
            rw [gcLt_irrefl] at hba
            exact Bool.noConfusion hba
          · have h2 : gcLt a b = true := ha b h1
            have h3 := gcLt_asymm a b h2
            rw [h3] at hba
            exact Bool.noConfusion hba
      · by_cases hab : gcLt a b = true
        · have hred : includes (a :: as) (b :: bs) = includes as (b :: bs) := by
            simp [includes, hba, hab]
          rw [hred]
          have key := ih (b :: bs) has hB
          rw [key]
          constructor
          · intro hall x hx
            exact List.mem_cons_of_mem a (hall x hx)
          · intro hall x hx
            have hxin : x ∈ a :: as := hall x hx
            rcases List.mem_cons.mp hxin with h1 | h1
            · exfalso
              rcases List.mem_cons.mp hx with h2 | h2
              · rw [h1.symm.trans h2] at hab
                rw [gcLt_irrefl] at hab
                exact Bool.noConfusion hab
              · have g1 : gcLt b x = true := hb x h2
                have g2 := gcLt_trans a b x hab g1
                rw [h1] at g2
                rw [gcLt_irrefl] at g2
                exact Bool.noConfusion g2
            · exact h1
        · have haeqb : a = b :=
            gcLt_connex a b (Bool.eq_false_iff.mpr hab) (Bool.eq_false_iff.mpr hba)
          have hred : includes (a :: as) (b :: bs) = includes as bs := by
            simp [includes, hba, hab]
          rw [hred]
          have key := ih bs has hbs
          rw [key]
          constructor
          · intro hall x hx
            rcases List.mem_cons.mp hx with h1 | h1
            · rw [h1, ← haeqb]
              exact List.mem_cons_self a as
            · exact List.mem_cons_of_mem a (hall x h1)
          · intro hall x hx
            have hxin : x ∈ a :: as := hall x (List.mem_cons_of_mem b hx)
            rcases List.mem_cons.mp hxin with h1 | h1
            · exfalso
              have g1 : gcLt b x = true := hb x hx
              rw [h1, ← haeqb] at g1
              rw [gcLt_irrefl] at g1
              exact Bool.noConfusion g1
            · exact h1

/-- Claim C9: for Groups whose rosters are sorted ascending by the
canonical strict GroupContainer order, IsSubset(set, subset) returns
true exactly when every roster entry of subset occurs in the roster of
set. -/
theorem issubset_iff (A B : Group)
    (hA : List.Pairwise gcLtP A.data.Roster) (hB : List.Pairwise gcLtP B.data.Roster) :
    IsSubset A B = true ↔ ∀ x ∈ B.data.Roster, x ∈ A.data.Roster :=
  includes_iff_mem _ _ hA hB

/-- Witness for C9 on concrete sorted groups: a two-member group and a
one-member subgroup of it. -/
theorem issubset_iff_witness :
    List.Pairwise gcLtP
        (Group.mk (mkGroupData [⟨1, [1], [1]⟩, ⟨2, [2], [2]⟩] [] 0 0)).data.Roster ∧
      List.Pairwise gcLtP (Group.mk (mkGroupData [⟨2, [2], [2]⟩] [] 0 0)).data.Roster ∧
      (IsSubset (Group.mk (mkGroupData [⟨1, [1], [1]⟩, ⟨2, [2], [2]⟩] [] 0 0))
            (Group.mk (mkGroupData [⟨2, [2], [2]⟩] [] 0 0)) = true ↔
        ∀ x ∈ (Group.mk (mkGroupData [⟨2, [2], [2]⟩] [] 0 0)).data.Roster,
          x ∈ (Group.mk (mkGroupData [⟨1, [1], [1]⟩, ⟨2, [2], [2]⟩] [] 0 0)).data.Roster) :=
  ⟨by decide, by decide, issubset_iff _ _ (by decide) (by decide)⟩

/-! ### Lookups with an absent id -/

theorem findIndexAux_eq_none (id : Nat) (l : List GroupContainer) :
    ∀ i, (∀ e ∈ l, e.first ≠ id) → findIndexAux id l i = none := by
  induction l with
  | nil =>
    intro i h
    rfl
  | cons e rest ih =>
    intro i h
    have he := h e (List.mem_cons_self e rest)
    simp only [findIndexAux, if_neg he]
    exact ih (i + 1) (fun x hx => h x (List.mem_cons_of_mem e hx))

/-- Claim C8: on a Group whose roster has no entry for an id, GetIndex
returns -1, GetKey the shared sentinel EmptyKey, GetPublicDiffieHellman
empty bytes, Next and Previous the zero id 0, and GetId returns the
zero id at any out-of-range position. -/
theorem group_unknown_id_lookups (g : Group) (id : Nat) (i : Int)
    (h : ∀ e ∈ g.data.Roster, e.first ≠ id)
    (hi : i < 0 ∨ (g.data.Roster.length : Int) ≤ i) :
    g.GetIndex id = -1 ∧ g.GetKey id = EmptyKey ∧ g.GetPublicDiffieHellman id = [] ∧
      g.Next id = 0 ∧ g.Previous id = 0 ∧ g.GetId i = 0 := by
  have hfind : findIndexAux id g.data.Roster 0 = none := findIndexAux_eq_none id _ 0 h
  have hfind2 : g.data.Roster.find? (fun e => e.first == id) = none := by
    apply List.find?_eq_none.mpr
    intro x hx
    simp [h x hx]
  refine ⟨?_, ?_, ?_, ?_, ?_, ?_⟩
  · simp [Group.GetIndex, hfind]
  · simp [Group.GetKey, hfind2]
  · simp [Group.GetPublicDiffieHellman, hfind2]
  · simp [Group.Next, hfind]
  · simp [Group.Previous, hfind]
  · cases i with
    | ofNat n =>
      have hn : g.data.Roster.length ≤ n := by
        rcases hi with h1 | h1 <;>
          (simp only [Int.ofNat_eq_coe] at h1; omega)
      simp [Group.GetId, List.getElem?_eq_none hn]
    | negSucc m => rfl

/-- Witness for C8 on a concrete one-member group, the absent id 5 and
the out-of-range position 7. -/
theorem group_unknown_id_lookups_witness :
    (∀ e ∈ (Group.mk (mkGroupData [⟨1, [1], [1]⟩] [] 0 0)).data.Roster, e.first ≠ 5) ∧
      ((7 : Int) < 0 ∨
        (((Group.mk (mkGroupData [⟨1, [1], [1]⟩] [] 0 0)).data.Roster.length : Int) ≤ 7)) ∧
      ((Group.mk (mkGroupData [⟨1, [1], [1]⟩] [] 0 0)).GetIndex 5 = -1 ∧
        (Group.mk (mkGroupData [⟨1, [1], [1]⟩] [] 0 0)).GetKey 5 = EmptyKey ∧
        (Group.mk (mkGroupData [⟨1, [1], [1]⟩] [] 0 0)).GetPublicDiffieHellman 5 = [] ∧
        (Group.mk (mkGroupData [⟨1, [1], [1]⟩] [] 0 0)).Next 5 = 0 ∧
        (Group.mk (mkGroupData [⟨1, [1], [1]⟩] [] 0 0)).Previous 5 = 0 ∧
        (Group.mk (mkGroupData [⟨1, [1], [1]⟩] [] 0 0)).GetId 7 = 0) :=
  ⟨by decide, by decide, group_unknown_id_lookups _ 5 7 (by decide) (by decide)⟩

/-! ### Codec round trips -/

theorem decInt_enc (i : Int) (r : List Nat) : decInt (encInt i ++ r) = some (i, r) := by
  cases i <;> rfl

theorem decBytes_enc (b r : List Nat) : decBytes (encBytes b ++ r) = some (b, r) := by
  have hcons : encBytes b ++ r = b.length :: (b ++ r) := rfl
  rw [hcons]
  have hle : b.length ≤ (b ++ r).length := by
    rw [List.length_append]
    exact Nat.le_add_right _ _
  simp [decBytes, hle, List.take_left, List.drop_left]

theorem decBytesVecAux_enc (l : List (List Nat)) (r : List Nat) :
    decBytesVecAux l.length ((l.map encBytes).flatten ++ r) = some (l, r) := by
  induction l generalizing r with
  | nil => rfl
  | cons b bs ih =>
    have hshape : ((b :: bs).map encBytes).flatten ++ r =
        encBytes b ++ (((bs.map encBytes).flatten) ++ r) := by
      simp [List.append_assoc]
    rw [List.length_cons]
    show decBytesVecAux (bs.length + 1) (((b :: bs).map encBytes).flatten ++ r) = _
    rw [hshape]
    simp only [decBytesVecAux, decBytes_enc, ih]

theorem decBytesVec_enc (l : List (List Nat)) (r : List Nat) :
    decBytesVec (encBytesVec l ++ r) = some (l, r) := by
  have hshape : encBytesVec l ++ r = l.length :: ((l.map encBytes).flatten ++ r) := by
    simp [encBytesVec]
  rw [hshape]
  show decBytesVecAux l.length ((l.map encBytes).flatten ++ r) = some (l, r)
  exact decBytesVecAux_enc l r

theorem decEntry_enc (e : GroupContainer) (r : List Nat) :
    decEntry (encEntry e ++ r) = some (e, r) := by
  have hshape : encEntry e ++ r =
      e.first :: (encBytes e.second ++ (encBytes e.third ++ r)) := by
    simp [encEntry, List.append_assoc]
  rw [hshape]
  simp only [decEntry, decBytes_enc]

theorem decEntriesAux_enc (l : List GroupContainer) (r : List Nat) :
    decEntriesAux l.length ((l.map encEntry).flatten ++ r) = some (l, r) := by
  induction l generalizing r with
  | nil => rfl
  | cons e es ih =>
    have hshape : ((e :: es).map encEntry).flatten ++ r =
        encEntry e ++ (((es.map encEntry).flatten) ++ r) := by
      simp [List.append_assoc]
    rw [List.length_cons]
    show decEntriesAux (es.length + 1) (((e :: es).map encEntry).flatten ++ r) = _
    rw [hshape]
    simp only [decEntriesAux, decEntry_enc, ih]

/-- Claim C3: the codec round-trips: decoding the encoding of any
Descriptor returns that Descriptor with nothing left over, and decoding
the encoding of any constructed Group returns that Group with nothing
left over. -/
theorem codec_roundtrip :
    (∀ d : Descriptor, decDescriptor (encDescriptor d) = some (d, [])) ∧
      (∀ (R : List GroupContainer) (leader policy : Nat),
        decGroup (encGroup (mkGroup R leader policy)) =
          some (mkGroup R leader policy, [])) := by
  constructor
  · intro d
    have hshape : encDescriptor d =
        encInt d.Length ++ (encBytes d.PublicDh ++ (encBytesVec d.XorMessageHashes ++
          (encBytes d.CleartextHash ++ []))) := by
      simp [encDescriptor, List.append_assoc]
    rw [hshape]
    simp only [decDescriptor, decInt_enc, decBytes_enc, decBytesVec_enc]
  · intro R leader policy
    have hshape : encGroup (mkGroup R leader policy) =
        (mkGroup R leader policy).data.Leader ::
          (mkGroup R leader policy).data.SGPolicy ::
            (mkGroup R leader policy).data.Roster.length ::
              (((mkGroup R leader policy).data.Roster.map encEntry).flatten ++ []) := by
      simp [encGroup]
    rw [hshape]
    show (match decEntriesAux (sortRoster R).length
        (((sortRoster R).map encEntry).flatten ++ []) with
      | none => none
      | some (roster, r1) =>
        some (Group.mk (mkGroupData roster (buildIdtoInt roster) leader policy), r1)) =
      some (mkGroup R leader policy, [])
    rw [decEntriesAux_enc]
    rfl

/-! ### Blame attribution -/

theorem flatten_map_all_nil (f : Nat → List Nat) (l : List Nat)
    (h : ∀ s ∈ l, f s = []) : (l.map f).flatten = [] := by
  induction l with
  | nil => rfl
  | cons a as ih =>
    simp [h a (List.mem_cons_self a as), ih (fun s hs => h s (List.mem_cons_of_mem a hs))]

theorem flatten_map_single (f : Nat → List Nat) (l : List Nat) (s0 : Nat)
    (hnd : l.Nodup) (hs0 : s0 ∈ l) (hz : ∀ s ∈ l, s ≠ s0 → f s = []) :
    (l.map f).flatten = f s0 := by
  induction l with
  | nil => exact absurd hs0 (List.not_mem_nil s0)
  | cons a as ih =>
    rcases List.mem_cons.mp hs0 with h1 | h1
    · have hnotin : s0 ∉ as := by
        rw [h1]
        exact (List.nodup_cons.mp hnd).1
      have hrest : (as.map f).flatten = [] :=
        flatten_map_all_nil f as
          (fun s hs => hz s (List.mem_cons_of_mem a hs) (fun he => hnotin (he ▸ hs)))
      rw [h1]
      simp [hrest]
    · have hane : a ≠ s0 := fun he => (List.nodup_cons.mp hnd).1 (he ▸ h1)
      have hfa : f a = [] := hz a (List.mem_cons_self a as) hane
      have ihh := ih (List.nodup_cons.mp hnd).2 h1
        (fun s hs hne => hz s (List.mem_cons_of_mem a hs) hne)
      simp [hfa, ihh]

theorem filter_eq_single (p : Nat → Bool) (l : List Nat) (d : Nat)
    (hnd : l.Nodup) (hd : d ∈ l) (hpd : p d = true)
    (hothers : ∀ x ∈ l, x ≠ d → p x = false) : l.filter p = [d] := by
  induction l with
  | nil => exact absurd hd (List.not_mem_nil d)
  | cons a as ih =>
    rcases List.mem_cons.mp hd with h1 | h1
    · have hnotin : d ∉ as := by
        rw [h1]
        exact (List.nodup_cons.mp hnd).1
      have hrest : as.filter p = [] := by
        apply List.filter_eq_nil_iff.mpr
        intro x hx
        rw [hothers x (List.mem_cons_of_mem a hx) (fun he => hnotin (he ▸ hx))]
        simp
      have hpa : p a = true := h1 ▸ hpd
      simp [List.filter_cons, hpa, hrest, h1]
    · have hane : a ≠ d := fun he => (List.nodup_cons.mp hnd).1 (he ▸ h1)
      have hpa : p a = false := hothers a (List.mem_cons_self a as) hane
      have ihh := ih (List.nodup_cons.mp hnd).2 h1
        (fun x hx hne => hothers x (List.mem_cons_of_mem a hx) hne)
      simp [List.filter_cons, hpa, ihh]

theorem columnXor_eq_total (P : BulkParams) (T : Nat → Nat → List Nat) (s : Nat)
    (hT : ∀ p, p < P.N → T p s = P.contrib s p) : P.columnXor T s = P.total s := by
  unfold BulkParams.columnXor BulkParams.total
  congr 1
  apply List.map_congr_left
  intro p hp
  exact hT p (List.mem_range.mp hp)

theorem slotBlame_honest (P : BulkParams) (xh : Nat → Nat → List Nat)
    (ch : Nat → List Nat) (T : Nat → Nat → List Nat) (s : Nat)
    (hxh : ∀ p, p < P.N → P.H (T p s) = xh s p)
    (hcol : P.H (P.columnXor T s) = ch s) :
    slotBlame P xh ch T s = [] := by
  have hb : badCells P xh T s = [] := by
    apply List.filter_eq_nil_iff.mpr
    intro p hp
    have hp2 : p < P.N := List.mem_range.mp hp
    simp [hxh p hp2]
  unfold slotBlame
  rw [hb]
  simp [hcol]

/-- Claim C2: when exactly one peer deviates in an otherwise honest
round — transmitting mask bytes that do not match its published xor
hash, publishing a bad xor hash, or publishing a wrong cleartext-hash
claim — the blame protocol puts exactly that peers group index into
the bad-members list, and nobody else. -/
theorem blame_attribution (P : BulkParams) (dev : Deviation)
    (hH : Function.Injective P.H)
    (hks : ∀ sec L, (P.keystream sec L).length = L)
    (how : ∀ s, s < P.N → P.owner s < P.N)
    (hwf : devWF P dev) :
    processBlame P (xhDev P dev) (chDev P dev) (tDev P dev) = [culprit P dev] := by
  cases dev with
  | badBytes d s0 bytes =>
    obtain ⟨hd, hs0, hb⟩ := hwf
    have hxh_eq : xhDev P (Deviation.badBytes d s0 bytes) = P.xhHonest := by
      simp only [xhDev]
    have hch_eq : chDev P (Deviation.badBytes d s0 bytes) = P.chHonest := by
      simp only [chDev]
    have hculp : culprit P (Deviation.badBytes d s0 bytes) = d := rfl
    have hT_ne : ∀ p s, ¬(p = d ∧ s = s0) →
        tDev P (Deviation.badBytes d s0 bytes) p s = P.contrib s p := by
      intro p s hne
      simp only [tDev]
      rw [if_neg hne]
      rfl
    have hT_d : tDev P (Deviation.badBytes d s0 bytes) d s0 = bytes := by
      simp [tDev]
    rw [hxh_eq, hch_eq, hculp]
    have hz : ∀ s ∈ List.range P.N, s ≠ s0 →
        slotBlame P P.xhHonest P.chHonest (tDev P (Deviation.badBytes d s0 bytes)) s = [] := by
      intro s hs hne
      have hsN := List.mem_range.mp hs
      have hTs : ∀ p, p < P.N →
          tDev P (Deviation.badBytes d s0 bytes) p s = P.contrib s p :=
        fun p _ => hT_ne p s (fun hc => hne hc.2)
      apply slotBlame_honest
      · intro p hp
        rw [hTs p hp]
        rfl
      · rw [columnXor_eq_total P _ s hTs, total_eq_cleartext P s hks (how s hsN)]
        rfl
    have hbad : badCells P P.xhHonest (tDev P (Deviation.badBytes d s0 bytes)) s0 = [d] := by
      apply filter_eq_single _ _ _ (List.nodup_range P.N) (List.mem_range.mpr hd) ?_ ?_
      · rw [hT_d, decide_eq_true_eq]
        intro heq
        exact hb (hH heq)
      · intro x hx hne
        rw [hT_ne x s0 (fun hc => hne hc.1)]
        rw [decide_eq_false_iff_not]
        exact fun hc => hc rfl
    have hslot0 : slotBlame P P.xhHonest P.chHonest
        (tDev P (Deviation.badBytes d s0 bytes)) s0 = [d] := by
      unfold slotBlame
      rw [hbad]
      rw [if_neg (List.cons_ne_nil d [])]
      simp only [List.map_cons, List.map_nil, List.flatten_cons, List.flatten_nil,
        List.append_nil]
      by_cases hdo : d = P.owner s0
      · unfold processCell
        rw [if_pos hdo, ← hdo]
      · unfold processCell
        rw [if_neg hdo]
        have hcon : P.contrib s0 d = P.keystream (P.sharedSecret s0 d) (P.len s0) := by
          simp [BulkParams.contrib, BulkParams.mask, hdo]
        rw [hT_d]
        rw [if_neg (fun hc => hb (by rw [hcon]; exact hc))]
        simp only [BulkParams.xhHonest]
        rw [if_pos (congrArg P.H hcon.symm)]
        simp
    unfold processBlame
    rw [flatten_map_single _ _ s0 (List.nodup_range P.N) (List.mem_range.mpr hs0) hz]
    exact hslot0
  | badHash s0 p0 h =>
    obtain ⟨hs0, hp0, hh⟩ := hwf
    have hch : chDev P (Deviation.badHash s0 p0 h) = P.chHonest := by
      simp only [chDev]
    have hT : tDev P (Deviation.badHash s0 p0 h) = P.tHonest := by
      simp only [tDev]
    have hculp : culprit P (Deviation.badHash s0 p0 h) = P.owner s0 := rfl
    have hxh_ne : ∀ s p, ¬(s = s0 ∧ p = p0) →
        xhDev P (Deviation.badHash s0 p0 h) s p = P.xhHonest s p := by
      intro s p hne
      simp only [xhDev]
      rw [if_neg hne]
    have hxh_eq : xhDev P (Deviation.badHash s0 p0 h) s0 p0 = h := by
      simp [xhDev]
    rw [hch, hT, hculp]
    have hz : ∀ s ∈ List.range P.N, s ≠ s0 →
        slotBlame P (xhDev P (Deviation.badHash s0 p0 h)) P.chHonest P.tHonest s = [] := by
      intro s hs hne
      have hsN := List.mem_range.mp hs
      apply slotBlame_honest
      · intro p hp
        rw [hxh_ne s p (fun hc => hne hc.1)]
        rfl
      · rw [columnXor_eq_total P P.tHonest s (fun p _ => rfl),
          total_eq_cleartext P s hks (how s hsN)]
        rfl
    have hbad : badCells P (xhDev P (Deviation.badHash s0 p0 h)) P.tHonest s0 = [p0] := by
      apply filter_eq_single _ _ _ (List.nodup_range P.N) (List.mem_range.mpr hp0) ?_ ?_
      · rw [hxh_eq, decide_eq_true_eq]
        exact fun hc => hh hc.symm
      · intro x hx hne
        rw [hxh_ne s0 x (fun hc => hne hc.2)]
        rw [decide_eq_false_iff_not]
        exact fun hc => hc rfl
    have hslot0 : slotBlame P (xhDev P (Deviation.badHash s0 p0 h)) P.chHonest
        P.tHonest s0 = [P.owner s0] := by
      unfold slotBlame
      rw [hbad]
      rw [if_neg (List.cons_ne_nil p0 [])]
      simp only [List.map_cons, List.map_nil, List.flatten_cons, List.flatten_nil,
        List.append_nil]
      by_cases hpo : p0 = P.owner s0
      · unfold processCell
        rw [if_pos hpo]
      · unfold processCell
        rw [if_neg hpo]
        have hcon : P.contrib s0 p0 = P.keystream (P.sharedSecret s0 p0) (P.len s0) := by
          simp [BulkParams.contrib, BulkParams.mask, hpo]
        rw [if_pos (show P.tHonest p0 s0 =
          P.keystream (P.sharedSecret s0 p0) (P.len s0) from hcon)]
        rw [hxh_eq]
        rw [if_neg (show ¬ (P.H (P.keystream (P.sharedSecret s0 p0) (P.len s0)) = h) from
          fun hc => hh (hc.symm.trans (congrArg P.H hcon).symm))]
        simp
    unfold processBlame
    rw [flatten_map_single _ _ s0 (List.nodup_range P.N) (List.mem_range.mpr hs0) hz]
    exact hslot0
  | badCtHash s0 h =>
    obtain ⟨hs0, hh⟩ := hwf
    have hxh : xhDev P (Deviation.badCtHash s0 h) = P.xhHonest := by
      simp only [xhDev]
    have hT : tDev P (Deviation.badCtHash s0 h) = P.tHonest := by
      simp only [tDev]
    have hculp : culprit P (Deviation.badCtHash s0 h) = P.owner s0 := rfl
    have hch_ne : ∀ s, s ≠ s0 →
        chDev P (Deviation.badCtHash s0 h) s = P.chHonest s := by
      intro s hne
      simp only [chDev]
      rw [if_neg hne]
    have hch_eq : chDev P (Deviation.badCtHash s0 h) s0 = h := by
      simp [chDev]
    rw [hxh, hT, hculp]
    have hz : ∀ s ∈ List.range P.N, s ≠ s0 →
        slotBlame P P.xhHonest (chDev P (Deviation.badCtHash s0 h)) P.tHonest s = [] := by
      intro s hs hne
      have hsN := List.mem_range.mp hs
      apply slotBlame_honest
      · intro p hp
        rfl
      · rw [hch_ne s hne, columnXor_eq_total P P.tHonest s (fun p _ => rfl),
          total_eq_cleartext P s hks (how s hsN)]
        rfl
    have hslot0 : slotBlame P P.xhHonest (chDev P (Deviation.badCtHash s0 h))
        P.tHonest s0 = [P.owner s0] := by
      unfold slotBlame
      have hb0 : badCells P P.xhHonest P.tHonest s0 = [] := by
        apply List.filter_eq_nil_iff.mpr
        intro p hp
        simp [BulkParams.tHonest, BulkParams.xhHonest]
      rw [hb0, if_pos (show ([] : List Nat) = [] from rfl)]
      rw [columnXor_eq_total P P.tHonest s0 (fun p _ => rfl),
        total_eq_cleartext P s0 hks (how s0 hs0), hch_eq]
      rw [if_neg (fun hc => hh hc.symm)]
    unfold processBlame
    rw [flatten_map_single _ _ s0 (List.nodup_range P.N) (List.mem_range.mpr hs0) hz]
    exact hslot0

/-- Witness for C2 at the concrete two-peer round: peer 1 transmits
wrong mask bytes for slot 0 and the blame protocol returns exactly
peer 1. -/
theorem blame_attribution_witness :
    devWF Pw (Deviation.badBytes 1 0 [9]) ∧
      processBlame Pw (xhDev Pw (Deviation.badBytes 1 0 [9]))
          (chDev Pw (Deviation.badBytes 1 0 [9]))
          (tDev Pw (Deviation.badBytes 1 0 [9])) = [1] :=
  ⟨⟨by decide, by decide, by decide⟩,
    blame_attribution Pw (Deviation.badBytes 1 0 [9]) (fun a b hab => hab)
      (fun _ L => List.length_replicate _ _) (fun s hs => hs)
      ⟨by decide, by decide, by decide⟩⟩

end Dissent
